import Mathlib

/-!
# Verification of the NNet → ONNX converter

A shallow embedding of `converters/nnet2onnx.py` from the NNet repository,
together with a model of the graph extractor described in the design
specification, and proofs about the converter's behaviour.

Tensors are modelled exactly: a weight matrix is a `List (List ℚ)` (rows of
columns, numpy shape `(rows, cols)`), a bias is a `List ℚ`.  The `.astype
(np.float32)` cast of the source is the identity in this exact model.

The generated tensor names of the source (`f"W{i}"`, `f"B{i}"`, …) are
embedded as `"W" ++ Nat.repr i`, …; the development therefore begins with a
proof that decimal numerals are injective, which underpins every
name-distinctness argument.
-/

namespace NNetOnnx

/-! ## Decimal numerals -/

/-- Numeric value of a decimal digit character. -/
def charVal (c : Char) : Nat := c.toNat - 48

/-- Value of a decimal digit string (most significant digit first). -/
def decimalVal (l : List Char) : Nat := l.foldl (fun a c => a * 10 + charVal c) 0
/-! ## Data model

Weight matrix `i` has numpy shape `(outputs_i, inputs_i)`: a list of rows.
-/

abbrev Mat := List (List ℚ)
abbrev Vec := List ℚ

/-- numpy `a.shape[0]` for a 2-D array. -/
def shape0 (m : Mat) : Nat := m.length

/-- numpy `a.shape[1]` for a 2-D array (numpy arrays are rectangular). -/
def shape1 (m : Mat) : Nat := (m.headD []).length

/-- Rectangularity, which numpy guarantees for every 2-D `ndarray`. -/
def Rect (m : Mat) : Prop := ∀ r ∈ m, r.length = shape1 m

/-- A graph-IR node: a typed operation with named input and output tensors. -/
structure Node where
  op : String
  inputs : List String
  outputs : List String
deriving DecidableEq

/-- A constant tensor value: 2-D (weight) or 1-D (bias). -/
inductive Tensor where
  | mat (m : Mat)
  | vec (v : Vec)
deriving DecidableEq

/-- A named constant tensor of the graph (`numpy_helper.from_array(_, name)`). -/
structure ConstTensor where
  name : String
  tensor : Tensor
deriving DecidableEq

/-- `helper.make_tensor_value_info(name, FLOAT, [None, featureCount])`. -/
structure ValueInfo where
  name : String
  featureCount : Nat
deriving DecidableEq

/-- The graph assembled by `helper.make_graph`. -/
structure Graph where
  nodes : List Node
  inputs : List ValueInfo
  outputs : List ValueInfo
  inits : List ConstTensor
deriving DecidableEq

/-- The numpy shape of a constant tensor. -/
def tensorShape : Tensor → List Nat
  | .mat m => [shape0 m, shape1 m]
  | .vec v => [v.length]

/-- The two `ValueError`s of the dimension-validation loop, plus the
`IndexError` that `weights[0]` raises on an empty network. -/
inductive ConvError where
  | dimMismatch (layer : Nat)
  | biasMismatch (layer : Nat)
  | emptyNetwork
deriving DecidableEq

/-! ## The converter -/

/-- The dimension-validation loop of `nnet2onnx` (source lines 53–62):
`i` is the loop index, `prev` is `weights[i-1].shape[0]` (unused at `i = 0`).
The first failing check raises. -/
def validateDims (inputSize : Nat) : Nat → Nat → List (Mat × Vec) → Option ConvError
  | _, _, [] => none
  | i, prev, (w, b) :: rest =>
    if shape1 w ≠ (if i > 0 then prev else inputSize) then some (.dimMismatch i)
    else if b.length ≠ shape0 w then some (.biasMismatch i)
    else validateDims inputSize (i + 1) (shape0 w) rest

/-- The graph-construction loop of `nnet2onnx` (source lines 70–93):
one `MatMul` and one `Add` per layer, a `Relu` after every layer but the
last, and a weight/bias constant pair per layer.  `currentInput` is the
threaded name of the previous layer's output. -/
def buildLoop (outputVar : String) (numLayers : Nat) :
    Nat → String → List (Mat × Vec) → List Node × List ConstTensor
  | _, _, [] => ([], [])
  | i, currentInput, (w, b) :: rest =>
    let weightName := "W" ++ Nat.repr i
    let biasName := "B" ++ Nat.repr i
    let matmulName := "M" ++ Nat.repr i
    let addName := if i < numLayers - 1 then "H" ++ Nat.repr i else outputVar
    let layerConsts : List ConstTensor := [⟨weightName, .mat w⟩, ⟨biasName, .vec b⟩]
    let mmNode : Node := ⟨"MatMul", [currentInput, weightName], [matmulName]⟩
    let addNode : Node := ⟨"Add", [matmulName, biasName], [addName]⟩
    if i < numLayers - 1 then
      let reluName := "R" ++ Nat.repr i
      let reluNode : Node := ⟨"Relu", [addName], [reluName]⟩
      let (ns, cs) := buildLoop outputVar numLayers (i + 1) reluName rest
      (mmNode :: addNode :: reluNode :: ns, layerConsts ++ cs)
    else
      let (ns, cs) := buildLoop outputVar numLayers (i + 1) addName rest
      (mmNode :: addNode :: ns, layerConsts ++ cs)

/-- Embedding of `nnet2onnx` from the moment weights/biases are in memory
(source lines 49–103): compute sizes, validate dimensions, build the graph. -/
def nnet2onnxCore (weights : List Mat) (biases : List Vec)
    (inputVar outputVar : String) : Except ConvError Graph :=
  match weights with
  | [] => .error .emptyNetwork
  | w0 :: _ =>
    let inputSize := shape1 w0
    let outputSize := shape0 (weights.getLastD [])
    let numLayers := weights.length
    match validateDims inputSize 0 0 (weights.zip biases) with
    | some e => .error e
    | none =>
      let (nodes, consts) := buildLoop outputVar numLayers 0 inputVar (weights.zip biases)
      .ok { nodes := nodes,
            inputs := [⟨inputVar, inputSize⟩],
            outputs := [⟨outputVar, outputSize⟩],
            inits := consts }

/-- Outcome of reading the `.nnet` file (`readNNet` / `normalizeNNet` are
external to the converter source). -/
inductive ReadError where
  | fileNotFound
  | readFailure
deriving DecidableEq

/-- An exception propagating out of the Python `nnet2onnx`. -/
inductive PyError where
  | badExtension
  | conv (e : ConvError)
deriving DecidableEq

/-- Observable outcome of one call to the Python `nnet2onnx`. -/
inductive PyOutcome where
  | ok (onnxFile : String) (g : Graph)
  | raised (e : PyError)
  | sysExit (code : Nat)
deriving DecidableEq

/-- Embedding of the whole `nnet2onnx` function (source lines 11–110).
File I/O is externalized: `readResult` stands for the outcome of
`readNNet`/`normalizeNNet` on `nnetFile`, and a successful run returns the
graph that `onnx.save_model` would serialize together with the resolved
file name.  The `.nnet`-extension check (`nnetFile.endswith(".nnet")`) is
modelled as a suffix test on the character list.  Both `except` clauses
around the read print a message and call `sys.exit(1)`, which this model
records as `.sysExit 1`. -/
def nnet2onnx (nnetFile : String) (onnxFile : Option String)
    (readResult : Except ReadError (List Mat × List Vec))
    (outputVar : String) (inputVar : String) : PyOutcome :=
  if ¬ (".nnet".data.isSuffixOf nnetFile.data) then .raised .badExtension
  else
    let onnxName := match onnxFile with
      | some f => f
      | none => nnetFile.replace ".nnet" ".onnx"
    match readResult with
    | .error _ => .sysExit 1
    | .ok (weights, biases) =>
      match nnet2onnxCore weights biases inputVar outputVar with
      | .error e => .raised (.conv e)
      | .ok g => .ok onnxName g

/-! ## The extractor (modelled from the spec) -/

/-- Find the node producing tensor `t` (first node listing `t` among its
outputs). -/
def findProducer (g : Graph) (t : String) : Option Node :=
  g.nodes.find? (fun nd => nd.outputs.contains t)

/-- Look `t` up among the graph's constant tensors. -/
def findConst (g : Graph) (t : String) : Option Tensor :=
  (g.inits.find? (fun c => c.name = t)).map ConstTensor.tensor

/-- Of a node's two inputs, return the non-constant name together with the
constant tensor; fails unless exactly one of the two is a constant. -/
def splitConst (g : Graph) (a b : String) : Option (String × Tensor) :=
  match findConst g a, findConst g b with
  | none, some t => some (a, t)
  | some t, none => some (b, t)
  | _, _ => none

/-- Modelled from the spec: the Graph Extractor's inverse walk (§4.3, steps
1–4) — the repository's extractor (`onnx2nnet`) is not part of `src/`.
Starting from a tensor name expected to be an `Add` output, recover the
(weight, bias) pair of that layer and recurse through the preceding `Relu`
until the declared input tensor terminates the walk; the step budget `fuel`
realizes the spec's bounded walk (`MalformedGraph`). -/
def extractWalk (g : Graph) (inputName : String) : Nat → String → Option (List (Mat × Vec))
  | 0, _ => none
  | fuel + 1, t =>
    match findProducer g t with
    | none => none
    | some andNode =>
      if andNode.op = "Add" then
        match andNode.inputs with
        | [x, y] =>
          match splitConst g x y with
          | some (mmName, Tensor.vec bvec) =>
            match findProducer g mmName with
            | none => none
            | some mmNode =>
              if mmNode.op = "MatMul" then
                match mmNode.inputs with
                | [p, q] =>
                  match splitConst g p q with
                  | some (srcName, Tensor.mat wmat) =>
                    if srcName = inputName then some [(wmat, bvec)]
                    else
                      match findProducer g srcName with
                      | none => none
                      | some reluNode =>
                        if reluNode.op = "Relu" then
                          match reluNode.inputs with
                          | [r] =>
                            match extractWalk g inputName fuel r with
                            | some rest => some (rest ++ [(wmat, bvec)])
                            | none => none
                          | _ => none
                        else none
                  | _ => none
                | _ => none
              else none
          | _ => none
        | _ => none
      else none

/-- Modelled from the spec: the Graph Extractor's entry point (§4.3) —
walk from the declared output tensor and return the Array Model in forward
order. -/
def onnx2nnet (g : Graph) (inputName outputName : String) :
    Option (List Mat × List Vec) :=
  match extractWalk g inputName (g.nodes.length + 1) outputName with
  | some layers => some (layers.map Prod.fst, layers.map Prod.snd)
  | none => none

/-- Builder followed by Extractor, the composition of the round-trip
property (§8). -/
def roundTrip (weights : List Mat) (biases : List Vec)
    (inputVar outputVar : String) : Option (List Mat × List Vec) :=
  match nnet2onnxCore weights biases inputVar outputVar with
  | .ok g => onnx2nnet g inputVar outputVar
  | .error _ => none

/-! ## Graph evaluation (ONNX runtime semantics) and NNet forward semantics -/

/-- Dot product of two rational vectors. -/
def dot (u v : Vec) : ℚ := (u.zip v).foldl (fun a p => a + p.1 * p.2) 0

/-- 2-D × 2-D matrix product, defined only when the inner dimensions agree
(numpy/ONNX `MatMul` raises a shape error otherwise). -/
def matMulMat (A B : Mat) : Option Mat :=
  if shape1 A = shape0 B then
    some (A.map (fun row =>
      (List.range (shape1 B)).map (fun j => dot row (B.map (fun r => r.getD j 0)))))
  else none

/-- ONNX `MatMul` on tensors: the built graph only ever multiplies the
2-D batch tensor by a 2-D weight constant. -/
def matMulT : Tensor → Tensor → Option Tensor
  | .mat A, .mat B => (matMulMat A B).map .mat
  | _, _ => none

/-- ONNX `Add` with the broadcasts the built graph can need: a 1-D bias of
matching length broadcast across the rows of a 2-D tensor, or two 2-D
tensors of equal shape. -/
def addT : Tensor → Tensor → Option Tensor
  | .mat M, .vec b =>
    if shape1 M = b.length then
      some (.mat (M.map (fun row => List.zipWith (· + ·) row b)))
    else none
  | .mat M, .mat N =>
    if shape0 M = shape0 N ∧ shape1 M = shape1 N then
      some (.mat (List.zipWith (List.zipWith (· + ·)) M N))
    else none
  | _, _ => none

/-- ONNX `Relu`: elementwise `max 0`. -/
def reluT : Tensor → Option Tensor
  | .mat M => some (.mat (M.map (fun row => row.map (fun v => max v 0))))
  | .vec u => some (.vec (u.map (fun v => max v 0)))

/-- Tensor environment built during evaluation. -/
def lookupEnv (env : List (String × Tensor)) (t : String) : Option Tensor :=
  (env.find? (fun p => p.1 = t)).map Prod.snd

/-- Evaluate one node: look up its operands, apply the operation, bind the
output name.  Fails on a shape error or an unknown operand. -/
def evalNode (env : List (String × Tensor)) (nd : Node) :
    Option (List (String × Tensor)) :=
  match nd.op, nd.inputs, nd.outputs with
  | "MatMul", [a, b], [o] => do
    let ta ← lookupEnv env a
    let tb ← lookupEnv env b
    let r ← matMulT ta tb
    some ((o, r) :: env)
  | "Add", [a, b], [o] => do
    let ta ← lookupEnv env a
    let tb ← lookupEnv env b
    let r ← addT ta tb
    some ((o, r) :: env)
  | "Relu", [a], [o] => do
    let ta ← lookupEnv env a
    let r ← reluT ta
    some ((o, r) :: env)
  | _, _, _ => none

/-- Evaluate the nodes in graph order. -/
def evalNodes : List Node → List (String × Tensor) → Option (List (String × Tensor))
  | [], env => some env
  | nd :: rest, env =>
    match evalNode env nd with
    | some env2 => evalNodes rest env2
    | none => none

/-- Modelled from the spec: running the produced graph in the ONNX runtime
(the external runtime is out of `src/`; §8's concrete scenario evaluates the
graph).  The raw input vector is fed as a batch of one, matching the
declared input shape `[None, inputSize]`; returns the tensor bound to
`outName`. -/
def evalGraph (g : Graph) (inName : String) (x : Vec) (outName : String) :
    Option Tensor :=
  let env0 := (inName, Tensor.mat [x]) :: g.inits.map (fun c => (c.name, c.tensor))
  match evalNodes g.nodes env0 with
  | some env => lookupEnv env outName
  | none => none

/-- Modelled from the spec: the NNet forward evaluation (§1, §6 — the NNet
reader/evaluator is external to `src/`): per layer `y = W · x + b`, with
ReLU between layers and a linear last layer. -/
def nnetForward : List (Mat × Vec) → Vec → Vec
  | [], x => x
  | (w, b) :: rest, x =>
    let y := List.zipWith (· + ·) (w.map (fun row => dot row x)) b
    match rest with
    | [] => y
    | _ :: _ => nnetForward rest (y.map (fun v => max v 0))

/-! ## Helpers used by claim statements -/

/-- Number of occurrences of `t` among the node output names of a produced
graph (`0` when the conversion failed). -/
def okOutCount (r : Except ConvError Graph) (t : String) : Nat :=
  match r with
  | .ok g => ((g.nodes.map Node.outputs).flatten).count t
  | .error _ => 0

/-- Did the conversion produce a graph? -/
def isOkB (r : Except ConvError Graph) : Bool :=
  match r with
  | .ok _ => true
  | .error _ => false

/-- Structural fingerprint of a graph: node count, node kinds in order, all
tensor names, initializer shapes (§8, determinism). -/
def graphStructure (g : Graph) : Nat × List String × List String × List (List Nat) :=
  (g.nodes.length,
   g.nodes.map Node.op,
   (g.nodes.map Node.outputs).flatten ++ g.inputs.map ValueInfo.name
     ++ g.outputs.map ValueInfo.name ++ g.inits.map ConstTensor.name,
   g.inits.map (fun c => tensorShape c.tensor))

/-! ## Closed form of the build loop -/

/-- Name of the tensor feeding layer `j`'s MatMul node. -/
def prevName (inputVar : String) (j : Nat) : String :=
  if j = 0 then inputVar else "R" ++ Nat.repr (j - 1)

/-- Name given to layer `j`'s Add output. -/
def addOutName (outputVar : String) (numLayers j : Nat) : String :=
  if j < numLayers - 1 then "H" ++ Nat.repr j else outputVar

/-- The nodes contributed by layer `j` of an `n`-layer network. -/
def layerNodes (inputVar outputVar : String) (n j : Nat) : List Node :=
  ⟨"MatMul", [prevName inputVar j, "W" ++ Nat.repr j], ["M" ++ Nat.repr j]⟩ ::
  ⟨"Add", ["M" ++ Nat.repr j, "B" ++ Nat.repr j], [addOutName outputVar n j]⟩ ::
  (if j < n - 1 then [⟨"Relu", [addOutName outputVar n j], ["R" ++ Nat.repr j]⟩] else [])

/-- Nodes of layers `j, j+1, …` of an `n`-layer network. -/
def nodesFrom (inputVar outputVar : String) (n : Nat) : Nat → List (Mat × Vec) → List Node
  | _, [] => []
  | j, _ :: rest =>
    layerNodes inputVar outputVar n j ++ nodesFrom inputVar outputVar n (j + 1) rest

/-- Constant tensors of layers `j, j+1, …`. -/
def constsFrom : Nat → List (Mat × Vec) → List ConstTensor
  | _, [] => []
  | j, (w, b) :: rest =>
    ⟨"W" ++ Nat.repr j, .mat w⟩ :: ⟨"B" ++ Nat.repr j, .vec b⟩ :: constsFrom (j + 1) rest

/-- Default layer used with `List.getD`. -/
def dflLayer : Mat × Vec := ([], [])

def ValidFrom (is : Nat) : Nat → Nat → List (Mat × Vec) → Prop
  | _, _, [] => True
  | i, prev, (w, b) :: rest =>
    shape1 w = (if i > 0 then prev else is) ∧ b.length = shape0 w ∧
      ValidFrom is (i + 1) (shape0 w) rest


theorem charVal_digitChar : ∀ m : Nat, m < 10 → charVal (Nat.digitChar m) = m := by decide

theorem toDigitsCore_append (fuel : Nat) :
    ∀ (n : Nat) (ds : List Char),
      Nat.toDigitsCore 10 fuel n ds = Nat.toDigitsCore 10 fuel n [] ++ ds := by
  induction fuel with
  | zero => intro n ds; simp [Nat.toDigitsCore]
  | succ f ih =>
    intro n ds
    simp only [Nat.toDigitsCore]
    by_cases h : n / 10 = 0
    · simp [h]
    · simp only [h, if_false]
      rw [ih (n / 10) (Nat.digitChar (n % 10) :: ds), ih (n / 10) [Nat.digitChar (n % 10)]]
      simp

theorem decimalVal_toDigitsCore (fuel : Nat) :
    ∀ n : Nat, n < 10 ^ fuel → decimalVal (Nat.toDigitsCore 10 fuel n []) = n := by
  induction fuel with
  | zero =>
    intro n hn
    interval_cases n
    simp [Nat.toDigitsCore, decimalVal]
  | succ f ih =>
    intro n hn
    simp only [Nat.toDigitsCore]
    by_cases h : n / 10 = 0
    · have hlt : n < 10 := by omega
      have hmod : n % 10 = n := Nat.mod_eq_of_lt hlt
      simp [h, decimalVal, hmod, charVal_digitChar n hlt]
    · simp only [h, if_false]
      rw [toDigitsCore_append]
      have hdiv : n / 10 < 10 ^ f := by
        rw [Nat.div_lt_iff_lt_mul (by norm_num)]
        calc n < 10 ^ (f + 1) := hn
        _ = 10 ^ f * 10 := by ring
      have hval := ih (n / 10) hdiv
      simp only [decimalVal, List.foldl_append, List.foldl_cons, List.foldl_nil] at hval ⊢
      rw [hval, charVal_digitChar (n % 10) (Nat.mod_lt n (by norm_num))]
      omega

theorem decimalVal_toDigits (n : Nat) : decimalVal (Nat.toDigits 10 n) = n := by
  have hfuel : n < 10 ^ (n + 1) := by
    calc n < 10 ^ n := Nat.lt_pow_self (by norm_num) n
    _ ≤ 10 ^ (n + 1) := Nat.pow_le_pow_right (by norm_num) (Nat.le_succ n)
  exact decimalVal_toDigitsCore (n + 1) n hfuel

theorem string_data_inj {s t : String} (h : s.data = t.data) : s = t := by
  cases s; cases t; cases h; rfl

theorem repr_inj {m n : Nat} (h : Nat.repr m = Nat.repr n) : m = n := by
  have hd : Nat.toDigits 10 m = Nat.toDigits 10 n := congrArg String.data h
  calc m = decimalVal (Nat.toDigits 10 m) := (decimalVal_toDigits m).symm
  _ = decimalVal (Nat.toDigits 10 n) := by rw [hd]
  _ = n := decimalVal_toDigits n

/-! ## Generated tensor-name distinctness -/

theorem appendRepr_eq_iff (p : String) (i j : Nat) :
    p ++ Nat.repr i = p ++ Nat.repr j ↔ i = j := by
  constructor
  · intro h
    have hd : p.data ++ (Nat.repr i).data = p.data ++ (Nat.repr j).data := by
      have := congrArg String.data h
      simpa [String.data_append] using this
    exact repr_inj (string_data_inj (List.append_cancel_left hd))
  · intro h; rw [h]

theorem oneCharAppend_ne {p q : String} {c d : Char} (hp : p.data = [c]) (hq : q.data = [d])
    (h : c ≠ d) (s t : String) : p ++ s ≠ q ++ t := by
  intro he
  have hd := congrArg String.data he
  simp only [String.data_append, hp, hq, List.cons_append, List.nil_append] at hd
  exact h (List.head_eq_of_cons_eq hd)

theorem oneChar_ne_append {p q : String} {c d : Char} (hp : p.data = [c]) (hq : q.data = [d])
    (h : c ≠ d) (t : String) : p ≠ q ++ t := by
  intro he
  have hd := congrArg String.data he
  simp only [String.data_append, hp, hq, List.cons_append, List.nil_append] at hd
  exact h (List.head_eq_of_cons_eq hd)

theorem buildLoop_eq (iv ov : String) (n : Nat) :
    ∀ (L : List (Mat × Vec)) (j : Nat), j + L.length = n →
      buildLoop ov n j (prevName iv j) L = (nodesFrom iv ov n j L, constsFrom j L) := by
  intro L
  induction L with
  | nil => intro j _; rfl
  | cons wb rest ih =>
    intro j hj
    obtain ⟨w, b⟩ := wb
    by_cases hlt : j < n - 1
    · have hnext : prevName iv (j + 1) = "R" ++ Nat.repr j := by
        simp [prevName]
      have hrec := ih (j + 1) (by simp only [List.length_cons] at hj; omega)
      rw [hnext] at hrec
      simp only [buildLoop, hlt, if_true, hrec]
      simp [nodesFrom, constsFrom, layerNodes, addOutName, hlt]
    · have hrest : rest = [] := by
        have : rest.length = 0 := by
          simp only [List.length_cons] at hj
          omega
        exact List.eq_nil_of_length_eq_zero this
      subst hrest
      simp only [buildLoop, hlt, if_false]
      simp [nodesFrom, constsFrom, layerNodes, addOutName, hlt]

theorem nodesFrom_length_ge (iv ov : String) (n : Nat) :
    ∀ (L : List (Mat × Vec)) (j : Nat), L.length ≤ (nodesFrom iv ov n j L).length := by
  intro L
  induction L with
  | nil => intro j; simp [nodesFrom]
  | cons wb rest ih =>
    intro j
    have := ih (j + 1)
    simp only [nodesFrom, List.length_append, List.length_cons, layerNodes]
    by_cases hlt : j < n - 1 <;> simp [hlt] <;> omega

/-- The converter on a nonempty, validated model, in closed form. -/
theorem nnet2onnxCore_eq_ok (weights : List Mat) (biases : List Vec) (iv ov : String)
    (hne : weights ≠ [])
    (hlen : weights.length ≤ biases.length)
    (hval : validateDims (shape1 (weights.headD [])) 0 0 (weights.zip biases) = none) :
    nnet2onnxCore weights biases iv ov =
      .ok ⟨nodesFrom iv ov weights.length 0 (weights.zip biases),
           [⟨iv, shape1 (weights.headD [])⟩],
           [⟨ov, shape0 (weights.getLastD [])⟩],
           constsFrom 0 (weights.zip biases)⟩ := by
  obtain ⟨w0, wrest, rfl⟩ : ∃ w0 wrest, weights = w0 :: wrest := by
    cases weights with
    | nil => exact absurd rfl hne
    | cons a l => exact ⟨a, l, rfl⟩
  have hziplen : ((w0 :: wrest).zip biases).length = (w0 :: wrest).length := by
    rw [List.length_zip]
    omega
  have hbuild := buildLoop_eq iv ov (w0 :: wrest).length ((w0 :: wrest).zip biases) 0
    (by omega)
  have hp : prevName iv 0 = iv := rfl
  rw [hp] at hbuild
  simp only [nnet2onnxCore, List.headD_cons] at hval ⊢
  rw [hval, hbuild]

/-! ## Characterizing the validation loop -/

theorem getD_zip_eq (l1 : List Mat) (l2 : List Vec) (k : Nat)
    (h : k < (l1.zip l2).length) :
    (l1.zip l2).getD k dflLayer = (l1.getD k [], l2.getD k []) := by
  have hlen := h
  rw [List.length_zip] at hlen
  have h1 : k < l1.length := by omega
  have h2 : k < l2.length := by omega
  rw [List.getD_eq_getElem _ _ h, List.getD_eq_getElem _ _ h1, List.getD_eq_getElem _ _ h2]
  exact List.getElem_zip

/-- Propositional contents of the validation loop. -/
theorem validateDims_eq_none_iff (is : Nat) :
    ∀ (L : List (Mat × Vec)) (i prev : Nat),
      validateDims is i prev L = none ↔ ValidFrom is i prev L := by
  intro L
  induction L with
  | nil => intro i prev; simp [validateDims, ValidFrom]
  | cons wb rest ih =>
    intro i prev
    obtain ⟨w, b⟩ := wb
    simp only [validateDims, ValidFrom]
    by_cases h1 : shape1 w = (if i > 0 then prev else is)
    · by_cases h2 : b.length = shape0 w
      · simp [h1, h2, ih (i + 1) (shape0 w)]
      · simp [h1, h2]
    · simp [h1]

theorem validFrom_iff_forall (is : Nat) :
    ∀ (L : List (Mat × Vec)) (i prev : Nat),
      ValidFrom is i prev L ↔
      ∀ k, k < L.length →
        shape1 (L.getD k dflLayer).1 =
            (if k = 0 then (if i > 0 then prev else is)
             else shape0 (L.getD (k - 1) dflLayer).1)
          ∧ (L.getD k dflLayer).2.length = shape0 (L.getD k dflLayer).1 := by
  intro L
  induction L with
  | nil => intro i prev; simp [ValidFrom]
  | cons wb rest ih =>
    intro i prev
    obtain ⟨w, b⟩ := wb
    simp only [ValidFrom, ih (i + 1) (shape0 w)]
    constructor
    · rintro ⟨hA, hB, hrest⟩ k hk
      match k with
      | 0 => simpa using ⟨hA, hB⟩
      | 1 =>
        have := hrest 0 (by simpa using hk)
        simpa using this
      | k + 2 =>
        have := hrest (k + 1) (by simp at hk ⊢; omega)
        simpa [List.getD_cons_succ] using this
    · intro hall
      refine ⟨by simpa using (hall 0 (by simp)).1, by simpa using (hall 0 (by simp)).2, ?_⟩
      intro k hk
      match k with
      | 0 =>
        have := hall 1 (by simp; omega)
        simpa using this
      | k + 1 =>
        have := hall (k + 2) (by simp at hk ⊢; omega)
        simpa [List.getD_cons_succ] using this

theorem validateDims_ne_dimMismatch_zero (is : Nat) :
    ∀ (L : List (Mat × Vec)) (i prev : Nat), 0 < i →
      validateDims is i prev L ≠ some (.dimMismatch 0) := by
  intro L
  induction L with
  | nil => intro i prev _; simp [validateDims]
  | cons wb rest ih =>
    intro i prev hi
    obtain ⟨w, b⟩ := wb
    simp only [validateDims]
    by_cases h1 : shape1 w ≠ (if i > 0 then prev else is)
    · rw [if_pos h1]
      simp only [ne_eq, Option.some.injEq, ConvError.dimMismatch.injEq]
      omega
    · by_cases h2 : b.length ≠ shape0 w
      · simp [h1, h2]
      · simpa [h1, h2] using ih (i + 1) (shape0 w) (by omega)

theorem constsFrom_length : ∀ (L : List (Mat × Vec)) (j : Nat),
    (constsFrom j L).length = 2 * L.length := by
  intro L
  induction L with
  | nil => intro j; simp [constsFrom]
  | cons wb rest ih =>
    intro j
    obtain ⟨w, b⟩ := wb
    simp only [constsFrom, List.length_cons, ih (j + 1)]
    omega

theorem nodesFrom_counts (iv ov : String) (n : Nat) :
    ∀ (L : List (Mat × Vec)) (j : Nat), j + L.length = n →
      (nodesFrom iv ov n j L).countP (fun nd => nd.op == "MatMul") = L.length ∧
      (nodesFrom iv ov n j L).countP (fun nd => nd.op == "Add") = L.length ∧
      (nodesFrom iv ov n j L).countP (fun nd => nd.op == "Relu") = L.length - 1 := by
  intro L
  induction L with
  | nil => intro j _; simp [nodesFrom]
  | cons wb rest ih =>
    intro j hj
    have hj' : (j + 1) + rest.length = n := by
      simp only [List.length_cons] at hj; omega
    obtain ⟨h1, h2, h3⟩ := ih (j + 1) hj'
    by_cases hlt : j < n - 1
    · have hrl : 1 ≤ rest.length := by
        rcases rest with _ | _
        · simp at hj'; omega
        · simp
      simp only [nodesFrom, layerNodes, hlt, if_true, List.countP_append, List.countP_cons,
        h1, h2, h3]
      refine ⟨by simp; omega, by simp; omega, by simp; omega⟩
    · have hrest : rest = [] := by
        rcases rest with _ | _
        · rfl
        · simp only [List.length_cons] at hj'; omega
      subst hrest
      simp only [nodesFrom, layerNodes, hlt, if_false, List.countP_append, List.countP_cons]
      refine ⟨by simp, by simp, by simp⟩

/-- Inversion: when the converter returns a graph, the model was nonempty,
validation passed, and the graph is the closed form. -/
theorem ok_inversion (weights : List Mat) (biases : List Vec) (iv ov : String)
    (g : Graph)
    (hlen : weights.length ≤ biases.length)
    (hok : nnet2onnxCore weights biases iv ov = .ok g) :
    weights ≠ [] ∧
    validateDims (shape1 (weights.headD [])) 0 0 (weights.zip biases) = none ∧
    g = ⟨nodesFrom iv ov weights.length 0 (weights.zip biases),
         [⟨iv, shape1 (weights.headD [])⟩],
         [⟨ov, shape0 (weights.getLastD [])⟩],
         constsFrom 0 (weights.zip biases)⟩ := by
  have hne : weights ≠ [] := by
    rintro rfl
    simp [nnet2onnxCore] at hok
  obtain ⟨w0, wrest, rfl⟩ := List.exists_cons_of_ne_nil hne
  cases hv : validateDims (shape1 w0) 0 0 ((w0 :: wrest).zip biases) with
  | some e =>
    simp only [nnet2onnxCore] at hok
    rw [hv] at hok
    exact absurd hok (by simp)
  | none =>
    refine ⟨hne, by simpa using hv, ?_⟩
    have hclosed := nnet2onnxCore_eq_ok (w0 :: wrest) biases iv ov hne hlen
      (by simpa using hv)
    rw [hclosed] at hok
    exact (Except.ok.inj hok).symm

/-! ## Distinctness of the generated names -/

theorem name_ne_WB (i j : Nat) : "W" ++ Nat.repr i ≠ "B" ++ Nat.repr j :=
  oneCharAppend_ne rfl rfl (by decide) _ _

theorem name_ne_WM (i j : Nat) : "W" ++ Nat.repr i ≠ "M" ++ Nat.repr j :=
  oneCharAppend_ne rfl rfl (by decide) _ _

theorem name_ne_WH (i j : Nat) : "W" ++ Nat.repr i ≠ "H" ++ Nat.repr j :=
  oneCharAppend_ne rfl rfl (by decide) _ _

theorem name_ne_WR (i j : Nat) : "W" ++ Nat.repr i ≠ "R" ++ Nat.repr j :=
  oneCharAppend_ne rfl rfl (by decide) _ _

theorem name_ne_BM (i j : Nat) : "B" ++ Nat.repr i ≠ "M" ++ Nat.repr j :=
  oneCharAppend_ne rfl rfl (by decide) _ _

theorem name_ne_BH (i j : Nat) : "B" ++ Nat.repr i ≠ "H" ++ Nat.repr j :=
  oneCharAppend_ne rfl rfl (by decide) _ _

theorem name_ne_BR (i j : Nat) : "B" ++ Nat.repr i ≠ "R" ++ Nat.repr j :=
  oneCharAppend_ne rfl rfl (by decide) _ _

theorem name_ne_MH (i j : Nat) : "M" ++ Nat.repr i ≠ "H" ++ Nat.repr j :=
  oneCharAppend_ne rfl rfl (by decide) _ _

theorem name_ne_MR (i j : Nat) : "M" ++ Nat.repr i ≠ "R" ++ Nat.repr j :=
  oneCharAppend_ne rfl rfl (by decide) _ _

theorem name_ne_HR (i j : Nat) : "H" ++ Nat.repr i ≠ "R" ++ Nat.repr j :=
  oneCharAppend_ne rfl rfl (by decide) _ _

theorem name_X_ne_W (i : Nat) : "X" ≠ "W" ++ Nat.repr i :=
  oneChar_ne_append rfl rfl (by decide) _

theorem name_X_ne_B (i : Nat) : "X" ≠ "B" ++ Nat.repr i :=
  oneChar_ne_append rfl rfl (by decide) _

theorem name_X_ne_R (i : Nat) : "X" ≠ "R" ++ Nat.repr i :=
  oneChar_ne_append rfl rfl (by decide) _

theorem name_Y_ne_M (i : Nat) : "Y" ≠ "M" ++ Nat.repr i :=
  oneChar_ne_append rfl rfl (by decide) _

theorem name_Y_ne_H (i : Nat) : "Y" ≠ "H" ++ Nat.repr i :=
  oneChar_ne_append rfl rfl (by decide) _

theorem name_Y_ne_R (i : Nat) : "Y" ≠ "R" ++ Nat.repr i :=
  oneChar_ne_append rfl rfl (by decide) _

/-! ## Locating nodes and constants in the built graph -/

theorem find?_nodesFrom (iv ov : String) (n : Nat) (p : Node → Bool) :
    ∀ (L : List (Mat × Vec)) (j0 j : Nat) (nd : Node),
      j0 ≤ j → j < j0 + L.length →
      (∀ k, j0 ≤ k → k < j → (layerNodes iv ov n k).find? p = none) →
      (layerNodes iv ov n j).find? p = some nd →
      (nodesFrom iv ov n j0 L).find? p = some nd := by
  intro L
  induction L with
  | nil => intro j0 j nd h1 h2 _ _; simp at h2; omega
  | cons wb rest ih =>
    intro j0 j nd hle hlt hskip hhit
    rcases Nat.eq_or_lt_of_le hle with rfl | hlt2
    · rw [nodesFrom, List.find?_append, hhit]
      rfl
    · rw [nodesFrom, List.find?_append, hskip j0 (le_refl _) hlt2]
      simp only [Option.none_or]
      exact ih (j0 + 1) j nd (by omega)
        (by simp only [List.length_cons] at hlt; omega)
        (fun k hk1 hk2 => hskip k (by omega) hk2) hhit

theorem find?_layerNodes_addName (iv ov : String) (n : Nat)
    (hovM : ∀ i, ov ≠ "M" ++ Nat.repr i)
    (hovH : ∀ i, ov ≠ "H" ++ Nat.repr i)
    (hovR : ∀ i, ov ≠ "R" ++ Nat.repr i)
    (j k : Nat) (hj : j < n) (hk : k < n) :
    (layerNodes iv ov n k).find?
        (fun nd => nd.outputs.contains (addOutName ov n j)) =
      if k = j then
        some ⟨"Add", ["M" ++ Nat.repr k, "B" ++ Nat.repr k], [addOutName ov n k]⟩
      else none := by
  have hmm : ("M" ++ Nat.repr k) ≠ addOutName ov n j := by
    unfold addOutName
    split
    · exact name_ne_MH k j
    · exact fun h => hovM k h.symm
  have hadd : (addOutName ov n k = addOutName ov n j) ↔ k = j := by
    constructor
    · intro h
      unfold addOutName at h
      by_cases h1 : k < n - 1 <;> by_cases h2 : j < n - 1 <;> simp [h1, h2] at h
      · exact (appendRepr_eq_iff "H" k j).mp h
      · exact absurd h.symm (hovH k)
      · exact absurd h (hovH j)
      · omega
    · intro h; rw [h]
  have hrelu : ("R" ++ Nat.repr k) ≠ addOutName ov n j := by
    unfold addOutName
    split
    · exact (name_ne_HR j k).symm
    · exact fun h => hovR k h.symm
  by_cases hkj : k = j
  · subst hkj
    rw [if_pos rfl, layerNodes,
      List.find?_cons_of_neg _ (by simp [Ne.symm hmm]),
      List.find?_cons_of_pos _ (by simp)]
  · have hadd' : addOutName ov n j ≠ addOutName ov n k :=
      fun h => hkj (hadd.mp h.symm)
    rw [if_neg hkj, layerNodes]
    rw [List.find?_cons_of_neg _ (by simp [Ne.symm hmm]),
      List.find?_cons_of_neg _ (by simp [hadd'])]
    by_cases hlt : k < n - 1
    · simp only [hlt, if_true]
      rw [List.find?_cons_of_neg _ (by simp [Ne.symm hrelu])]
      rfl
    · simp only [hlt, if_false]
      rfl

theorem find?_layerNodes_matmulName (iv ov : String) (n : Nat)
    (hovM : ∀ i, ov ≠ "M" ++ Nat.repr i)
    (j k : Nat) (hk : k < n) :
    (layerNodes iv ov n k).find?
        (fun nd => nd.outputs.contains ("M" ++ Nat.repr j)) =
      if k = j then
        some ⟨"MatMul", [prevName iv k, "W" ++ Nat.repr k], ["M" ++ Nat.repr k]⟩
      else none := by
  have hadd : (addOutName ov n k) ≠ ("M" ++ Nat.repr j) := by
    unfold addOutName
    split
    · exact (name_ne_MH j k).symm
    · exact hovM j
  by_cases hkj : k = j
  · subst hkj
    rw [if_pos rfl, layerNodes, List.find?_cons_of_pos _ (by simp)]
  · have hmm : ("M" ++ Nat.repr k) ≠ ("M" ++ Nat.repr j) := by
      intro h; exact hkj (by simpa [appendRepr_eq_iff] using h)
    rw [if_neg hkj, layerNodes]
    rw [List.find?_cons_of_neg _ (by simp [Ne.symm hmm]),
      List.find?_cons_of_neg _ (by simp [Ne.symm hadd])]
    by_cases hlt : k < n - 1
    · simp only [hlt, if_true]
      rw [List.find?_cons_of_neg _ (by simp [name_ne_MR j k])]
      rfl
    · simp only [hlt, if_false]
      rfl

theorem find?_layerNodes_reluName (iv ov : String) (n : Nat)
    (hovR : ∀ i, ov ≠ "R" ++ Nat.repr i)
    (j k : Nat) (hj : j < n - 1) (hk : k < n) :
    (layerNodes iv ov n k).find?
        (fun nd => nd.outputs.contains ("R" ++ Nat.repr j)) =
      if k = j then
        some ⟨"Relu", [addOutName ov n k], ["R" ++ Nat.repr k]⟩
      else none := by
  have hadd : (addOutName ov n k) ≠ ("R" ++ Nat.repr j) := by
    unfold addOutName
    split
    · exact name_ne_HR k j
    · exact hovR j
  by_cases hkj : k = j
  · subst hkj
    rw [if_pos rfl, layerNodes,
      List.find?_cons_of_neg _ (by simp [Ne.symm (name_ne_MR k k)]),
      List.find?_cons_of_neg _ (by simp [Ne.symm hadd])]
    simp only [hj, if_true]
    rw [List.find?_cons_of_pos _ (by simp)]
  · have hrr : ("R" ++ Nat.repr k) ≠ ("R" ++ Nat.repr j) := by
      intro h; exact hkj (by simpa [appendRepr_eq_iff] using h)
    rw [if_neg hkj, layerNodes]
    rw [List.find?_cons_of_neg _ (by simp [Ne.symm (name_ne_MR k j)]),
      List.find?_cons_of_neg _ (by simp [Ne.symm hadd])]
    by_cases hlt : k < n - 1
    · simp only [hlt, if_true]
      rw [List.find?_cons_of_neg _ (by simp [Ne.symm hrr])]
      rfl
    · simp only [hlt, if_false]
      rfl

theorem find?_constsFrom_W :
    ∀ (L : List (Mat × Vec)) (j0 j : Nat), j0 ≤ j → j < j0 + L.length →
      (constsFrom j0 L).find? (fun c => c.name = "W" ++ Nat.repr j) =
        some ⟨"W" ++ Nat.repr j, .mat (L.getD (j - j0) dflLayer).1⟩ := by
  intro L
  induction L with
  | nil => intro j0 j h1 h2; simp at h2; omega
  | cons wb rest ih =>
    intro j0 j hle hlt
    obtain ⟨w, b⟩ := wb
    rcases Nat.eq_or_lt_of_le hle with rfl | hlt2
    · rw [constsFrom, List.find?_cons_of_pos _ (by simp)]
      simp
    · rw [constsFrom,
        List.find?_cons_of_neg _ (by simp [appendRepr_eq_iff]; omega),
        List.find?_cons_of_neg _ (by simp [(name_ne_WB j j0).symm])]
      have harith : j - j0 = (j - (j0 + 1)) + 1 := by omega
      rw [harith, List.getD_cons_succ]
      exact ih (j0 + 1) j (by omega) (by simp only [List.length_cons] at hlt; omega)

theorem find?_constsFrom_B :
    ∀ (L : List (Mat × Vec)) (j0 j : Nat), j0 ≤ j → j < j0 + L.length →
      (constsFrom j0 L).find? (fun c => c.name = "B" ++ Nat.repr j) =
        some ⟨"B" ++ Nat.repr j, .vec (L.getD (j - j0) dflLayer).2⟩ := by
  intro L
  induction L with
  | nil => intro j0 j h1 h2; simp at h2; omega
  | cons wb rest ih =>
    intro j0 j hle hlt
    obtain ⟨w, b⟩ := wb
    rcases Nat.eq_or_lt_of_le hle with rfl | hlt2
    · rw [constsFrom,
        List.find?_cons_of_neg _ (by simp [name_ne_WB j0 j0]),
        List.find?_cons_of_pos _ (by simp)]
      simp
    · rw [constsFrom,
        List.find?_cons_of_neg _ (by simp [name_ne_WB j0 j]),
        List.find?_cons_of_neg _ (by simp [appendRepr_eq_iff]; omega)]
      have harith : j - j0 = (j - (j0 + 1)) + 1 := by omega
      rw [harith, List.getD_cons_succ]
      exact ih (j0 + 1) j (by omega) (by simp only [List.length_cons] at hlt; omega)

theorem find?_constsFrom_none (t : String)
    (hW : ∀ k, t ≠ "W" ++ Nat.repr k) (hB : ∀ k, t ≠ "B" ++ Nat.repr k) :
    ∀ (L : List (Mat × Vec)) (j0 : Nat),
      (constsFrom j0 L).find? (fun c => c.name = t) = none := by
  intro L
  induction L with
  | nil => intro j0; rfl
  | cons wb rest ih =>
    intro j0
    obtain ⟨w, b⟩ := wb
    rw [constsFrom,
      List.find?_cons_of_neg _ (by simp [Ne.symm (hW j0)]),
      List.find?_cons_of_neg _ (by simp [Ne.symm (hB j0)])]
    exact ih (j0 + 1)

theorem findProducer_built_add (iv ov : String) (n : Nat) (L : List (Mat × Vec))
    (ins outs : List ValueInfo)
    (hovM : ∀ i, ov ≠ "M" ++ Nat.repr i)
    (hovH : ∀ i, ov ≠ "H" ++ Nat.repr i)
    (hovR : ∀ i, ov ≠ "R" ++ Nat.repr i)
    (hlen : L.length = n) (j : Nat) (hj : j < n) :
    findProducer ⟨nodesFrom iv ov n 0 L, ins, outs, constsFrom 0 L⟩
        (addOutName ov n j) =
      some ⟨"Add", ["M" ++ Nat.repr j, "B" ++ Nat.repr j], [addOutName ov n j]⟩ := by
  unfold findProducer
  refine find?_nodesFrom iv ov n _ L 0 j _ (by omega) (by omega) ?_ ?_
  · intro k hk1 hk2
    rw [find?_layerNodes_addName iv ov n hovM hovH hovR j k hj (by omega),
      if_neg (by omega)]
  · rw [find?_layerNodes_addName iv ov n hovM hovH hovR j j hj hj, if_pos rfl]

theorem findProducer_built_matmul (iv ov : String) (n : Nat) (L : List (Mat × Vec))
    (ins outs : List ValueInfo)
    (hovM : ∀ i, ov ≠ "M" ++ Nat.repr i)
    (hlen : L.length = n) (j : Nat) (hj : j < n) :
    findProducer ⟨nodesFrom iv ov n 0 L, ins, outs, constsFrom 0 L⟩
        ("M" ++ Nat.repr j) =
      some ⟨"MatMul", [prevName iv j, "W" ++ Nat.repr j], ["M" ++ Nat.repr j]⟩ := by
  unfold findProducer
  refine find?_nodesFrom iv ov n _ L 0 j _ (by omega) (by omega) ?_ ?_
  · intro k hk1 hk2
    rw [find?_layerNodes_matmulName iv ov n hovM j k (by omega), if_neg (by omega)]
  · rw [find?_layerNodes_matmulName iv ov n hovM j j hj, if_pos rfl]

theorem findProducer_built_relu (iv ov : String) (n : Nat) (L : List (Mat × Vec))
    (ins outs : List ValueInfo)
    (hovR : ∀ i, ov ≠ "R" ++ Nat.repr i)
    (hlen : L.length = n) (j : Nat) (hj : j < n - 1) :
    findProducer ⟨nodesFrom iv ov n 0 L, ins, outs, constsFrom 0 L⟩
        ("R" ++ Nat.repr j) =
      some ⟨"Relu", [addOutName ov n j], ["R" ++ Nat.repr j]⟩ := by
  unfold findProducer
  refine find?_nodesFrom iv ov n _ L 0 j _ (by omega) (by omega) ?_ ?_
  · intro k hk1 hk2
    rw [find?_layerNodes_reluName iv ov n hovR j k hj (by omega), if_neg (by omega)]
  · rw [find?_layerNodes_reluName iv ov n hovR j j hj (by omega), if_pos rfl]

theorem splitConst_built_addInputs (iv ov : String) (n : Nat) (L : List (Mat × Vec))
    (ins outs : List ValueInfo)
    (hlen : L.length = n) (j : Nat) (hj : j < n) :
    splitConst ⟨nodesFrom iv ov n 0 L, ins, outs, constsFrom 0 L⟩
        ("M" ++ Nat.repr j) ("B" ++ Nat.repr j) =
      some ("M" ++ Nat.repr j, .vec (L.getD j dflLayer).2) := by
  unfold splitConst findConst
  rw [show (⟨nodesFrom iv ov n 0 L, ins, outs, constsFrom 0 L⟩ : Graph).inits =
      constsFrom 0 L from rfl,
    find?_constsFrom_none ("M" ++ Nat.repr j)
      (fun k => (name_ne_WM k j).symm) (fun k => (name_ne_BM k j).symm) L 0,
    find?_constsFrom_B L 0 j (by omega) (by omega)]
  rfl

theorem splitConst_built_mmInputs (iv ov : String) (n : Nat) (L : List (Mat × Vec))
    (ins outs : List ValueInfo)
    (hivW : ∀ k, iv ≠ "W" ++ Nat.repr k)
    (hivB : ∀ k, iv ≠ "B" ++ Nat.repr k)
    (hlen : L.length = n) (j : Nat) (hj : j < n) :
    splitConst ⟨nodesFrom iv ov n 0 L, ins, outs, constsFrom 0 L⟩
        (prevName iv j) ("W" ++ Nat.repr j) =
      some (prevName iv j, .mat (L.getD j dflLayer).1) := by
  have hnone : ∀ (k : Nat), prevName iv j ≠ "W" ++ Nat.repr k ∧
      prevName iv j ≠ "B" ++ Nat.repr k := by
    intro k
    unfold prevName
    split
    · exact ⟨hivW k, hivB k⟩
    · exact ⟨(name_ne_WR k (j - 1)).symm, (name_ne_BR k (j - 1)).symm⟩
  unfold splitConst findConst
  rw [show (⟨nodesFrom iv ov n 0 L, ins, outs, constsFrom 0 L⟩ : Graph).inits =
      constsFrom 0 L from rfl,
    find?_constsFrom_none (prevName iv j)
      (fun k => (hnone k).1) (fun k => (hnone k).2) L 0,
    find?_constsFrom_W L 0 j (by omega) (by omega)]
  rfl

theorem roundTrip_of_ok (weights : List Mat) (biases : List Vec) (iv ov : String)
    (g : Graph) (hok : nnet2onnxCore weights biases iv ov = .ok g) :
    roundTrip weights biases iv ov = onnx2nnet g iv ov := by
  unfold roundTrip
  rw [hok]

theorem onnx2nnet_of_walk (g : Graph) (iN oN : String) (layers : List (Mat × Vec))
    (h : extractWalk g iN (g.nodes.length + 1) oN = some layers) :
    onnx2nnet g iN oN = some (layers.map Prod.fst, layers.map Prod.snd) := by
  unfold onnx2nnet
  rw [h]

/-! ## One step of the extractor walk -/

theorem extractWalk_step_base (g : Graph) (inputName : String) (fuel : Nat)
    (t x y mmName srcName p q : String) (bvec : Vec) (wmat : Mat)
    (outsA outsM : List String)
    (h1 : findProducer g t = some ⟨"Add", [x, y], outsA⟩)
    (h2 : splitConst g x y = some (mmName, .vec bvec))
    (h3 : findProducer g mmName = some ⟨"MatMul", [p, q], outsM⟩)
    (h4 : splitConst g p q = some (srcName, .mat wmat))
    (h5 : srcName = inputName) :
    extractWalk g inputName (fuel + 1) t = some [(wmat, bvec)] := by
  simp only [extractWalk, h1, h2, h3, h4, h5]
  simp only [if_true]

theorem extractWalk_step_relu (g : Graph) (inputName : String) (fuel : Nat)
    (t x y mmName srcName p q r : String) (bvec : Vec) (wmat : Mat)
    (outsA outsM outsR : List String)
    (h1 : findProducer g t = some ⟨"Add", [x, y], outsA⟩)
    (h2 : splitConst g x y = some (mmName, .vec bvec))
    (h3 : findProducer g mmName = some ⟨"MatMul", [p, q], outsM⟩)
    (h4 : splitConst g p q = some (srcName, .mat wmat))
    (h5 : srcName ≠ inputName)
    (h6 : findProducer g srcName = some ⟨"Relu", [r], outsR⟩) :
    extractWalk g inputName (fuel + 1) t =
      (extractWalk g inputName fuel r).map (fun rest => rest ++ [(wmat, bvec)]) := by
  simp only [extractWalk, h1, h2, h3, h4, h5, h6]
  simp only [if_true, if_false]
  cases h : extractWalk g inputName fuel r <;> simp [h]

/-- One `getD` element as a singleton take. -/
theorem take_succ_getD (L : List (Mat × Vec)) (j : Nat) (hj : j < L.length) :
    L.take (j + 1) = L.take j ++ [L.getD j dflLayer] := by
  rw [List.take_succ, List.getElem?_eq_getElem hj, List.getD_eq_getElem _ _ hj]
  rfl

/-- The extractor walk inverts the build loop: starting from layer `j`'s Add
output it recovers layers `0..j` in order. -/
theorem extractWalk_built (iv ov : String) (n : Nat) (L : List (Mat × Vec))
    (ins outs : List ValueInfo)
    (hovM : ∀ i, ov ≠ "M" ++ Nat.repr i)
    (hovH : ∀ i, ov ≠ "H" ++ Nat.repr i)
    (hovR : ∀ i, ov ≠ "R" ++ Nat.repr i)
    (hivW : ∀ k, iv ≠ "W" ++ Nat.repr k)
    (hivB : ∀ k, iv ≠ "B" ++ Nat.repr k)
    (hivR : ∀ k, iv ≠ "R" ++ Nat.repr k)
    (hlen : L.length = n) :
    ∀ (j fuel : Nat), j < n → j < fuel →
      extractWalk ⟨nodesFrom iv ov n 0 L, ins, outs, constsFrom 0 L⟩ iv fuel
          (addOutName ov n j) =
        some (L.take (j + 1)) := by
  intro j
  induction j with
  | zero =>
    intro fuel hj hfuel
    obtain ⟨f, rfl⟩ : ∃ f, fuel = f + 1 := ⟨fuel - 1, by omega⟩
    rw [extractWalk_step_base _ iv f (addOutName ov n 0)
        ("M" ++ Nat.repr 0) ("B" ++ Nat.repr 0) ("M" ++ Nat.repr 0)
        (prevName iv 0) (prevName iv 0) ("W" ++ Nat.repr 0)
        ((L.getD 0 dflLayer).2) ((L.getD 0 dflLayer).1)
        [addOutName ov n 0] ["M" ++ Nat.repr 0]
        (findProducer_built_add iv ov n L ins outs hovM hovH hovR hlen 0 hj)
        (splitConst_built_addInputs iv ov n L ins outs hlen 0 hj)
        (findProducer_built_matmul iv ov n L ins outs hovM hlen 0 hj)
        (splitConst_built_mmInputs iv ov n L ins outs hivW hivB hlen 0 hj)
        rfl,
      take_succ_getD L 0 (by omega)]
    simp
  | succ j ih =>
    intro fuel hj hfuel
    obtain ⟨f, rfl⟩ : ∃ f, fuel = f + 1 := ⟨fuel - 1, by omega⟩
    have hpn : prevName iv (j + 1) = "R" ++ Nat.repr j := by
      simp [prevName]
    have hsrc : prevName iv (j + 1) ≠ iv := by
      rw [hpn]; exact Ne.symm (hivR j)
    have hrelu := findProducer_built_relu iv ov n L ins outs hovR hlen j (by omega)
    rw [← hpn] at hrelu
    rw [extractWalk_step_relu _ iv f (addOutName ov n (j + 1))
        ("M" ++ Nat.repr (j + 1)) ("B" ++ Nat.repr (j + 1)) ("M" ++ Nat.repr (j + 1))
        (prevName iv (j + 1)) (prevName iv (j + 1)) ("W" ++ Nat.repr (j + 1))
        (addOutName ov n j)
        ((L.getD (j + 1) dflLayer).2) ((L.getD (j + 1) dflLayer).1)
        [addOutName ov n (j + 1)] ["M" ++ Nat.repr (j + 1)] ["R" ++ Nat.repr j]
        (findProducer_built_add iv ov n L ins outs hovM hovH hovR hlen (j + 1) hj)
        (splitConst_built_addInputs iv ov n L ins outs hlen (j + 1) hj)
        (findProducer_built_matmul iv ov n L ins outs hovM hlen (j + 1) hj)
        (splitConst_built_mmInputs iv ov n L ins outs hivW hivB hlen (j + 1) hj)
        hsrc hrelu,
      ih f (by omega) (by omega),
      take_succ_getD L (j + 1) (by omega)]
    rfl

theorem nodesFrom_getD (iv ov : String) (n : Nat) :
    ∀ (L : List (Mat × Vec)) (j0 : Nat), j0 + L.length = n →
      ∀ k, k < L.length →
        ((nodesFrom iv ov n j0 L).getD (3 * k) ⟨"", [], []⟩ =
          ⟨"MatMul", [prevName iv (j0 + k), "W" ++ Nat.repr (j0 + k)],
           ["M" ++ Nat.repr (j0 + k)]⟩ ∧
         (nodesFrom iv ov n j0 L).getD (3 * k + 1) ⟨"", [], []⟩ =
          ⟨"Add", ["M" ++ Nat.repr (j0 + k), "B" ++ Nat.repr (j0 + k)],
           [addOutName ov n (j0 + k)]⟩ ∧
         (j0 + k < n - 1 →
          (nodesFrom iv ov n j0 L).getD (3 * k + 2) ⟨"", [], []⟩ =
            ⟨"Relu", [addOutName ov n (j0 + k)], ["R" ++ Nat.repr (j0 + k)]⟩)) := by
  intro L
  induction L with
  | nil => intro j0 _ k hk; simp at hk
  | cons wb rest ih =>
    intro j0 hj0 k hk
    match k with
    | 0 =>
      by_cases hlt : j0 < n - 1
      · simp [nodesFrom, layerNodes, hlt]
      · have hvac : ¬ (j0 + 0 < n - 1) := by omega
        simp [nodesFrom, layerNodes, hlt, hvac]
    | k + 1 =>
      have hrl : k + 1 < rest.length + 1 := by simpa using hk
      have hlt : j0 < n - 1 := by
        simp only [List.length_cons] at hj0
        omega
      obtain ⟨ihm, iha, ihr⟩ := ih (j0 + 1)
        (by simp only [List.length_cons] at hj0; omega) k (by omega)
      have hsucc : j0 + 1 + k = j0 + (k + 1) := by omega
      rw [hsucc] at ihm iha ihr
      have hform : nodesFrom iv ov n j0 (wb :: rest) =
          ⟨"MatMul", [prevName iv j0, "W" ++ Nat.repr j0], ["M" ++ Nat.repr j0]⟩ ::
          ⟨"Add", ["M" ++ Nat.repr j0, "B" ++ Nat.repr j0], [addOutName ov n j0]⟩ ::
          ⟨"Relu", [addOutName ov n j0], ["R" ++ Nat.repr j0]⟩ ::
          nodesFrom iv ov n (j0 + 1) rest := by
        simp [nodesFrom, layerNodes, hlt]
      rw [hform]
      refine ⟨?_, ?_, fun hlast => ?_⟩
      · rw [show 3 * (k + 1) = 3 * k + 1 + 1 + 1 from by ring,
          List.getD_cons_succ, List.getD_cons_succ, List.getD_cons_succ]
        exact ihm
      · rw [show 3 * (k + 1) + 1 = 3 * k + 1 + 1 + 1 + 1 from by ring,
          List.getD_cons_succ, List.getD_cons_succ, List.getD_cons_succ]
        exact iha
      · rw [show 3 * (k + 1) + 2 = 3 * k + 2 + 1 + 1 + 1 from by ring,
          List.getD_cons_succ, List.getD_cons_succ, List.getD_cons_succ]
        exact ihr hlast

theorem nodesFrom_relu_inputs (iv ov : String) (n : Nat) :
    ∀ (L : List (Mat × Vec)) (j0 : Nat), j0 + L.length = n →
      ∀ nd ∈ nodesFrom iv ov n j0 L, nd.op = "Relu" →
        ∃ k, k < n - 1 ∧ nd.inputs = ["H" ++ Nat.repr k] := by
  intro L
  induction L with
  | nil => intro j0 _ nd hnd; simp [nodesFrom] at hnd
  | cons wb rest ih =>
    intro j0 hj0 nd hnd hop
    rw [nodesFrom, List.mem_append] at hnd
    rcases hnd with hnd | hnd
    · unfold layerNodes at hnd
      rcases List.mem_cons.mp hnd with rfl | hnd
      · simp at hop
      rcases List.mem_cons.mp hnd with rfl | hnd
      · simp at hop
      by_cases hlt : j0 < n - 1
      · rw [if_pos hlt] at hnd
        rcases List.mem_cons.mp hnd with rfl | hnd
        · refine ⟨j0, hlt, ?_⟩
          rw [show Node.inputs ⟨"Relu", [addOutName ov n j0], ["R" ++ Nat.repr j0]⟩ =
              [addOutName ov n j0] from rfl]
          unfold addOutName
          rw [if_pos hlt]
        · simp at hnd
      · rw [if_neg hlt] at hnd
        simp at hnd
    · exact ih (j0 + 1) (by simp only [List.length_cons] at hj0; omega) nd hnd hop

/-! ## Claim theorems -/

/-- C5: `nnet2onnx` fails with a shape error (a `ValueError` from the
dimension-validation loop) iff, for some layer `i`, either `i > 0` and
`weights[i].shape[1] ≠ weights[i-1].shape[0]`, or `biases[i].length ≠
weights[i].shape[0]`; when all layers satisfy both conditions no shape
error is raised. -/
theorem shape_error_iff (weights : List Mat) (biases : List Vec) (iv ov : String)
    (hne : weights ≠ []) (hlen : weights.length = biases.length) :
    (∃ e, nnet2onnxCore weights biases iv ov = .error e) ↔
    (∃ i, i < weights.length ∧
      ((0 < i ∧ shape1 (weights.getD i []) ≠ shape0 (weights.getD (i - 1) [])) ∨
       (biases.getD i []).length ≠ shape0 (weights.getD i []))) := by
  obtain ⟨w0, wrest, rfl⟩ := List.exists_cons_of_ne_nil hne
  have hzlen : ((w0 :: wrest).zip biases).length = (w0 :: wrest).length := by
    rw [List.length_zip]; omega
  have step1 : (∃ e, nnet2onnxCore (w0 :: wrest) biases iv ov = .error e) ↔
      ¬ validateDims (shape1 w0) 0 0 ((w0 :: wrest).zip biases) = none := by
    cases hv : validateDims (shape1 w0) 0 0 ((w0 :: wrest).zip biases) with
    | none => simp [nnet2onnxCore, hv]
    | some e => simp [nnet2onnxCore, hv]
  rw [step1, validateDims_eq_none_iff, validFrom_iff_forall]
  constructor
  · intro hnall
    by_contra hnex
    push_neg at hnex
    apply hnall
    intro k hk
    have hk' : k < (w0 :: wrest).length := by omega
    have hx := hnex k hk'
    rw [getD_zip_eq _ _ _ hk]
    refine ⟨?_, hx.2⟩
    rcases Nat.eq_zero_or_pos k with rfl | hpos
    · simp
    · rw [if_neg (by omega), getD_zip_eq _ _ _ (by omega)]
      exact hx.1 hpos
  · rintro ⟨i, hi, hbad⟩ hall
    have hA := hall i (by omega)
    rw [getD_zip_eq _ _ _ (by omega)] at hA
    rcases hbad with ⟨hpos, hneq⟩ | hneq
    · rw [if_neg (by omega), getD_zip_eq _ _ _ (by omega)] at hA
      exact hneq hA.1
    · exact hneq hA.2

/-- C10: the dimension check of the validation loop can never fire at layer
0: the declared input size is `weights[0].shape[1]` itself, so the
`ValueError` branch is unreachable for `i = 0` on every input. -/
theorem layer0_dim_check_unreachable (weights : List Mat) (biases : List Vec)
    (iv ov : String) :
    nnet2onnxCore weights biases iv ov ≠ .error (.dimMismatch 0) := by
  cases weights with
  | nil => simp [nnet2onnxCore]
  | cons w0 wrest =>
    cases biases with
    | nil => simp [nnet2onnxCore, validateDims]
    | cons b0 brest =>
      simp only [nnet2onnxCore, List.zip_cons_cons, validateDims]
      rw [if_neg (by simp)]
      by_cases h2 : b0.length ≠ shape0 w0
      · rw [if_pos h2]; simp
      · rw [if_neg h2]
        cases hv : validateDims (shape1 w0) 1 (shape0 w0) (List.zipWith Prod.mk wrest brest) with
        | none => simp [hv]
        | some e =>
          have he : e ≠ .dimMismatch 0 := by
            intro hc
            exact validateDims_ne_dimMismatch_zero (shape1 w0) (List.zipWith Prod.mk wrest brest) 1
              (shape0 w0) (by omega) (hc ▸ hv)
          simp [hv, he]

/-- C2: for a model the converter accepts, the produced graph contains
exactly `numLayers` MatMul nodes and `numLayers` Add nodes (the
`2·numLayers` arithmetic nodes), exactly `numLayers − 1` ReLU nodes, and
exactly `2·numLayers` constant initializers (one weight, one bias per
layer). -/
theorem builder_node_and_const_counts (weights : List Mat) (biases : List Vec)
    (iv ov : String) (g : Graph)
    (hlen : weights.length = biases.length)
    (hok : nnet2onnxCore weights biases iv ov = .ok g) :
    g.nodes.countP (fun nd => nd.op == "MatMul") = weights.length ∧
    g.nodes.countP (fun nd => nd.op == "Add") = weights.length ∧
    g.nodes.countP (fun nd => nd.op == "Relu") = weights.length - 1 ∧
    g.inits.length = 2 * weights.length := by
  obtain ⟨hne, hv, rfl⟩ := ok_inversion weights biases iv ov g (by omega) hok
  have hzlen : (weights.zip biases).length = weights.length := by
    rw [List.length_zip]; omega
  obtain ⟨h1, h2, h3⟩ := nodesFrom_counts iv ov weights.length (weights.zip biases) 0
    (by omega)
  have h4 := constsFrom_length (weights.zip biases) 0
  exact ⟨by simpa [hzlen] using h1, by simpa [hzlen] using h2,
    by simpa [hzlen] using h3, by simpa [hzlen] using h4⟩

theorem builder_node_and_const_counts_witness :
    ([[[1]]] : List Mat).length = ([[0]] : List Vec).length ∧
    nnet2onnxCore [[[1]]] [[0]] "X" "Y" =
      .ok ⟨[⟨"MatMul", ["X", "W0"], ["M0"]⟩, ⟨"Add", ["M0", "B0"], ["Y"]⟩],
           [⟨"X", 1⟩], [⟨"Y", 1⟩],
           [⟨"W0", .mat [[1]]⟩, ⟨"B0", .vec [0]⟩]⟩ ∧
    ((⟨[⟨"MatMul", ["X", "W0"], ["M0"]⟩, ⟨"Add", ["M0", "B0"], ["Y"]⟩],
       [⟨"X", 1⟩], [⟨"Y", 1⟩],
       [⟨"W0", .mat [[1]]⟩, ⟨"B0", .vec [0]⟩]⟩ : Graph).nodes.countP
        (fun nd => nd.op == "MatMul") = ([[[1]]] : List Mat).length ∧
     (⟨[⟨"MatMul", ["X", "W0"], ["M0"]⟩, ⟨"Add", ["M0", "B0"], ["Y"]⟩],
       [⟨"X", 1⟩], [⟨"Y", 1⟩],
       [⟨"W0", .mat [[1]]⟩, ⟨"B0", .vec [0]⟩]⟩ : Graph).nodes.countP
        (fun nd => nd.op == "Add") = ([[[1]]] : List Mat).length ∧
     (⟨[⟨"MatMul", ["X", "W0"], ["M0"]⟩, ⟨"Add", ["M0", "B0"], ["Y"]⟩],
       [⟨"X", 1⟩], [⟨"Y", 1⟩],
       [⟨"W0", .mat [[1]]⟩, ⟨"B0", .vec [0]⟩]⟩ : Graph).nodes.countP
        (fun nd => nd.op == "Relu") = ([[[1]]] : List Mat).length - 1 ∧
     (⟨[⟨"MatMul", ["X", "W0"], ["M0"]⟩, ⟨"Add", ["M0", "B0"], ["Y"]⟩],
       [⟨"X", 1⟩], [⟨"Y", 1⟩],
       [⟨"W0", .mat [[1]]⟩, ⟨"B0", .vec [0]⟩]⟩ : Graph).inits.length =
        2 * ([[[1]]] : List Mat).length) :=
  ⟨rfl, rfl, builder_node_and_const_counts [[[1]]] [[0]] "X" "Y" _ rfl rfl⟩

/-- C4: the produced graph declares an input tensor whose feature count is
`weights[0].shape[1]` (the column count of the first weight matrix) and an
output tensor whose feature count is `weights[-1].shape[0]` (the row count
of the last weight matrix). -/
theorem declared_feature_counts (weights : List Mat) (biases : List Vec)
    (iv ov : String) (g : Graph)
    (hlen : weights.length = biases.length)
    (hok : nnet2onnxCore weights biases iv ov = .ok g) :
    g.inputs = [⟨iv, shape1 (weights.headD [])⟩] ∧
    g.outputs = [⟨ov, shape0 (weights.getLastD [])⟩] := by
  obtain ⟨-, -, rfl⟩ := ok_inversion weights biases iv ov g (by omega) hok
  exact ⟨rfl, rfl⟩

theorem declared_feature_counts_witness :
    ([[[1]]] : List Mat).length = ([[0]] : List Vec).length ∧
    nnet2onnxCore [[[1]]] [[0]] "X" "Y" =
      .ok ⟨[⟨"MatMul", ["X", "W0"], ["M0"]⟩, ⟨"Add", ["M0", "B0"], ["Y"]⟩],
           [⟨"X", 1⟩], [⟨"Y", 1⟩],
           [⟨"W0", .mat [[1]]⟩, ⟨"B0", .vec [0]⟩]⟩ ∧
    ((⟨[⟨"MatMul", ["X", "W0"], ["M0"]⟩, ⟨"Add", ["M0", "B0"], ["Y"]⟩],
       [⟨"X", 1⟩], [⟨"Y", 1⟩],
       [⟨"W0", .mat [[1]]⟩, ⟨"B0", .vec [0]⟩]⟩ : Graph).inputs =
        [⟨"X", shape1 (([[[1]]] : List Mat).headD [])⟩] ∧
     (⟨[⟨"MatMul", ["X", "W0"], ["M0"]⟩, ⟨"Add", ["M0", "B0"], ["Y"]⟩],
       [⟨"X", 1⟩], [⟨"Y", 1⟩],
       [⟨"W0", .mat [[1]]⟩, ⟨"B0", .vec [0]⟩]⟩ : Graph).outputs =
        [⟨"Y", shape0 (([[[1]]] : List Mat).getLastD [])⟩]) :=
  ⟨rfl, rfl, declared_feature_counts [[[1]]] [[0]] "X" "Y" _ rfl rfl⟩

/-- C8: determinism — two conversions of the same model with the same
input/output names produce structurally identical graphs: same node count,
same node kinds in the same order, same tensor names, same initializer
shapes. -/
theorem builder_deterministic (weights : List Mat) (biases : List Vec)
    (iv ov : String) (g1 g2 : Graph)
    (h1 : nnet2onnxCore weights biases iv ov = .ok g1)
    (h2 : nnet2onnxCore weights biases iv ov = .ok g2) :
    graphStructure g1 = graphStructure g2 := by
  rw [h1] at h2
  rw [Except.ok.inj h2]

theorem builder_deterministic_witness :
    nnet2onnxCore [[[1]]] [[0]] "X" "Y" =
      .ok ⟨[⟨"MatMul", ["X", "W0"], ["M0"]⟩, ⟨"Add", ["M0", "B0"], ["Y"]⟩],
           [⟨"X", 1⟩], [⟨"Y", 1⟩],
           [⟨"W0", .mat [[1]]⟩, ⟨"B0", .vec [0]⟩]⟩ ∧
    graphStructure ⟨[⟨"MatMul", ["X", "W0"], ["M0"]⟩, ⟨"Add", ["M0", "B0"], ["Y"]⟩],
           [⟨"X", 1⟩], [⟨"Y", 1⟩],
           [⟨"W0", .mat [[1]]⟩, ⟨"B0", .vec [0]⟩]⟩ =
      graphStructure ⟨[⟨"MatMul", ["X", "W0"], ["M0"]⟩, ⟨"Add", ["M0", "B0"], ["Y"]⟩],
           [⟨"X", 1⟩], [⟨"Y", 1⟩],
           [⟨"W0", .mat [[1]]⟩, ⟨"B0", .vec [0]⟩]⟩ :=
  ⟨rfl, builder_deterministic [[[1]]] [[0]] "X" "Y" _ _ rfl rfl⟩

theorem shape_error_iff_witness :
    ([[[1, 2]], [[3, 4]]] : List Mat) ≠ [] ∧
    ([[[1, 2]], [[3, 4]]] : List Mat).length = ([[0], [0]] : List Vec).length ∧
    ((∃ e, nnet2onnxCore [[[1, 2]], [[3, 4]]] [[0], [0]] "X" "Y" = .error e) ↔
     (∃ i, i < ([[[1, 2]], [[3, 4]]] : List Mat).length ∧
       ((0 < i ∧ shape1 (([[[1, 2]], [[3, 4]]] : List Mat).getD i []) ≠
           shape0 (([[[1, 2]], [[3, 4]]] : List Mat).getD (i - 1) [])) ∨
        (([[0], [0]] : List Vec).getD i []).length ≠
           shape0 (([[[1, 2]], [[3, 4]]] : List Mat).getD i [])))) :=
  ⟨by simp, rfl, shape_error_iff [[[1, 2]], [[3, 4]]] [[0], [0]] "X" "Y" (by simp) rfl⟩

/-- C1: round-trip identity — for every valid model (`numLayers ≥ 1`, equal
list lengths, chained shapes, matching bias lengths), extracting the graph
built with input name "X" and output name "Y" returns exactly the original
weights and biases.  Tensor values are copied verbatim by both directions,
so the recovered model is equal element-wise (a fortiori within the 1e-6
tolerance). -/
theorem roundtrip_identity (weights : List Mat) (biases : List Vec)
    (hne : weights ≠ [])
    (hlen : weights.length = biases.length)
    (hchain : ∀ i, i < weights.length → 0 < i →
      shape1 (weights.getD i []) = shape0 (weights.getD (i - 1) []))
    (hbias : ∀ i, i < weights.length →
      (biases.getD i []).length = shape0 (weights.getD i [])) :
    roundTrip weights biases "X" "Y" = some (weights, biases) := by
  obtain ⟨w0, wrest, rfl⟩ := List.exists_cons_of_ne_nil hne
  have hzlen : (((w0 :: wrest)).zip biases).length = (w0 :: wrest).length := by
    rw [List.length_zip]; omega
  have hval : validateDims (shape1 ((w0 :: wrest).headD [])) 0 0
      ((w0 :: wrest).zip biases) = none := by
    rw [validateDims_eq_none_iff, validFrom_iff_forall]
    intro k hk
    rw [getD_zip_eq _ _ _ hk]
    refine ⟨?_, hbias k (by omega)⟩
    rcases Nat.eq_zero_or_pos k with rfl | hpos
    · simp
    · rw [if_neg (by omega), getD_zip_eq _ _ _ (by omega)]
      exact hchain k (by omega) hpos
  have hok := nnet2onnxCore_eq_ok (w0 :: wrest) biases "X" "Y" hne (by omega) hval
  have hn1 : 0 < (w0 :: wrest).length := by simp
  have hge := nodesFrom_length_ge "X" "Y" (w0 :: wrest).length
    ((w0 :: wrest).zip biases) 0
  have hY : addOutName "Y" (w0 :: wrest).length ((w0 :: wrest).length - 1) = "Y" := by
    unfold addOutName
    rw [if_neg (by omega)]
  have hwalk := extractWalk_built "X" "Y" (w0 :: wrest).length
    ((w0 :: wrest).zip biases)
    [⟨"X", shape1 ((w0 :: wrest).headD [])⟩]
    [⟨"Y", shape0 ((w0 :: wrest).getLastD [])⟩]
    name_Y_ne_M name_Y_ne_H name_Y_ne_R name_X_ne_W name_X_ne_B name_X_ne_R
    hzlen ((w0 :: wrest).length - 1)
    ((nodesFrom "X" "Y" (w0 :: wrest).length 0 ((w0 :: wrest).zip biases)).length + 1)
    (by omega) (by omega)
  rw [hY] at hwalk
  have htake : ((w0 :: wrest).zip biases).take (((w0 :: wrest).length - 1) + 1) =
      (w0 :: wrest).zip biases := by
    have heq : ((w0 :: wrest).length - 1) + 1 = ((w0 :: wrest).zip biases).length := by
      omega
    rw [heq, List.take_length]
  rw [htake] at hwalk
  rw [roundTrip_of_ok _ _ _ _ _ hok,
    onnx2nnet_of_walk _ _ _ _ hwalk,
    List.map_fst_zip _ _ (by omega), List.map_snd_zip _ _ (by omega)]

theorem roundtrip_identity_witness :
    (([[[1, 0], [0, 1]], [[2, 2]]] : List Mat) ≠ []) ∧
    ([[[1, 0], [0, 1]], [[2, 2]]] : List Mat).length =
      ([[0, 0], [1]] : List Vec).length ∧
    (∀ i, i < ([[[1, 0], [0, 1]], [[2, 2]]] : List Mat).length → 0 < i →
      shape1 (([[[1, 0], [0, 1]], [[2, 2]]] : List Mat).getD i []) =
        shape0 (([[[1, 0], [0, 1]], [[2, 2]]] : List Mat).getD (i - 1) [])) ∧
    (∀ i, i < ([[[1, 0], [0, 1]], [[2, 2]]] : List Mat).length →
      (([[0, 0], [1]] : List Vec).getD i []).length =
        shape0 (([[[1, 0], [0, 1]], [[2, 2]]] : List Mat).getD i [])) ∧
    roundTrip [[[1, 0], [0, 1]], [[2, 2]]] [[0, 0], [1]] "X" "Y" =
      some ([[[1, 0], [0, 1]], [[2, 2]]], [[0, 0], [1]]) :=
  ⟨by simp, rfl, by decide, by decide,
    roundtrip_identity [[[1, 0], [0, 1]], [[2, 2]]] [[0, 0], [1]]
      (by simp) rfl (by decide) (by decide)⟩

/-- C3: layer wiring — layer `j`'s MatMul node consumes the declared input
tensor when `j = 0` and the previous layer's ReLU output `R(j-1)` when
`j > 0`; every layer but the last feeds its Add output `H(j)` into a ReLU
node whose output `R(j)` is the next MatMul's input; the last layer's Add
output is named exactly the caller's output variable, and no ReLU node
consumes that name. -/
theorem builder_layer_wiring (weights : List Mat) (biases : List Vec)
    (iv ov : String) (g : Graph)
    (hlen : weights.length = biases.length)
    (hov : ∀ k, ov ≠ "H" ++ Nat.repr k)
    (hok : nnet2onnxCore weights biases iv ov = .ok g) :
    (∀ j, j < weights.length →
      g.nodes.getD (3 * j) ⟨"", [], []⟩ =
        ⟨"MatMul", [if j = 0 then iv else "R" ++ Nat.repr (j - 1), "W" ++ Nat.repr j],
         ["M" ++ Nat.repr j]⟩ ∧
      g.nodes.getD (3 * j + 1) ⟨"", [], []⟩ =
        ⟨"Add", ["M" ++ Nat.repr j, "B" ++ Nat.repr j],
         [if j < weights.length - 1 then "H" ++ Nat.repr j else ov]⟩) ∧
    (∀ j, j < weights.length - 1 →
      g.nodes.getD (3 * j + 2) ⟨"", [], []⟩ =
        ⟨"Relu", ["H" ++ Nat.repr j], ["R" ++ Nat.repr j]⟩) ∧
    (∀ nd ∈ g.nodes, nd.op = "Relu" → ov ∉ nd.inputs) := by
  obtain ⟨hne, hv, rfl⟩ := ok_inversion weights biases iv ov g (by omega) hok
  have hzlen : (weights.zip biases).length = weights.length := by
    rw [List.length_zip]; omega
  refine ⟨?_, ?_, ?_⟩
  · intro j hj
    obtain ⟨hm, ha, -⟩ := nodesFrom_getD iv ov weights.length (weights.zip biases) 0
      (by omega) j (by omega)
    simp only [Nat.zero_add] at hm ha
    constructor
    · rw [show prevName iv j = (if j = 0 then iv else "R" ++ Nat.repr (j - 1))
        from rfl] at hm
      exact hm
    · rw [show addOutName ov weights.length j =
        (if j < weights.length - 1 then "H" ++ Nat.repr j else ov) from rfl] at ha
      exact ha
  · intro j hj
    obtain ⟨-, -, hr⟩ := nodesFrom_getD iv ov weights.length (weights.zip biases) 0
      (by omega) j (by omega)
    simp only [Nat.zero_add] at hr
    have := hr hj
    rw [show addOutName ov weights.length j = "H" ++ Nat.repr j from by
      unfold addOutName; rw [if_pos hj]] at this
    exact this
  · intro nd hnd hop hmem
    obtain ⟨k, -, hinp⟩ := nodesFrom_relu_inputs iv ov weights.length
      (weights.zip biases) 0 (by omega) nd hnd hop
    rw [hinp] at hmem
    exact hov k (by simpa using hmem)

theorem builder_layer_wiring_witness :
    ([[[1]], [[1]]] : List Mat).length = ([[0], [0]] : List Vec).length ∧
    (∀ k, ("Y" : String) ≠ "H" ++ Nat.repr k) ∧
    nnet2onnxCore [[[1]], [[1]]] [[0], [0]] "X" "Y" =
      .ok ⟨[⟨"MatMul", ["X", "W0"], ["M0"]⟩, ⟨"Add", ["M0", "B0"], ["H0"]⟩,
            ⟨"Relu", ["H0"], ["R0"]⟩, ⟨"MatMul", ["R0", "W1"], ["M1"]⟩,
            ⟨"Add", ["M1", "B1"], ["Y"]⟩],
           [⟨"X", 1⟩], [⟨"Y", 1⟩],
           [⟨"W0", .mat [[1]]⟩, ⟨"B0", .vec [0]⟩,
            ⟨"W1", .mat [[1]]⟩, ⟨"B1", .vec [0]⟩]⟩ ∧
    ((∀ j, j < ([[[1]], [[1]]] : List Mat).length →
      (⟨[⟨"MatMul", ["X", "W0"], ["M0"]⟩, ⟨"Add", ["M0", "B0"], ["H0"]⟩,
            ⟨"Relu", ["H0"], ["R0"]⟩, ⟨"MatMul", ["R0", "W1"], ["M1"]⟩,
            ⟨"Add", ["M1", "B1"], ["Y"]⟩],
           [⟨"X", 1⟩], [⟨"Y", 1⟩],
           [⟨"W0", .mat [[1]]⟩, ⟨"B0", .vec [0]⟩,
            ⟨"W1", .mat [[1]]⟩, ⟨"B1", .vec [0]⟩]⟩ : Graph).nodes.getD (3 * j)
          ⟨"", [], []⟩ =
        ⟨"MatMul", [if j = 0 then "X" else "R" ++ Nat.repr (j - 1), "W" ++ Nat.repr j],
         ["M" ++ Nat.repr j]⟩ ∧
      (⟨[⟨"MatMul", ["X", "W0"], ["M0"]⟩, ⟨"Add", ["M0", "B0"], ["H0"]⟩,
            ⟨"Relu", ["H0"], ["R0"]⟩, ⟨"MatMul", ["R0", "W1"], ["M1"]⟩,
            ⟨"Add", ["M1", "B1"], ["Y"]⟩],
           [⟨"X", 1⟩], [⟨"Y", 1⟩],
           [⟨"W0", .mat [[1]]⟩, ⟨"B0", .vec [0]⟩,
            ⟨"W1", .mat [[1]]⟩, ⟨"B1", .vec [0]⟩]⟩ : Graph).nodes.getD (3 * j + 1)
          ⟨"", [], []⟩ =
        ⟨"Add", ["M" ++ Nat.repr j, "B" ++ Nat.repr j],
         [if j < ([[[1]], [[1]]] : List Mat).length - 1 then "H" ++ Nat.repr j
          else "Y"]⟩) ∧
     (∀ j, j < ([[[1]], [[1]]] : List Mat).length - 1 →
      (⟨[⟨"MatMul", ["X", "W0"], ["M0"]⟩, ⟨"Add", ["M0", "B0"], ["H0"]⟩,
            ⟨"Relu", ["H0"], ["R0"]⟩, ⟨"MatMul", ["R0", "W1"], ["M1"]⟩,
            ⟨"Add", ["M1", "B1"], ["Y"]⟩],
           [⟨"X", 1⟩], [⟨"Y", 1⟩],
           [⟨"W0", .mat [[1]]⟩, ⟨"B0", .vec [0]⟩,
            ⟨"W1", .mat [[1]]⟩, ⟨"B1", .vec [0]⟩]⟩ : Graph).nodes.getD (3 * j + 2)
          ⟨"", [], []⟩ =
        ⟨"Relu", ["H" ++ Nat.repr j], ["R" ++ Nat.repr j]⟩) ∧
     (∀ nd ∈ (⟨[⟨"MatMul", ["X", "W0"], ["M0"]⟩, ⟨"Add", ["M0", "B0"], ["H0"]⟩,
            ⟨"Relu", ["H0"], ["R0"]⟩, ⟨"MatMul", ["R0", "W1"], ["M1"]⟩,
            ⟨"Add", ["M1", "B1"], ["Y"]⟩],
           [⟨"X", 1⟩], [⟨"Y", 1⟩],
           [⟨"W0", .mat [[1]]⟩, ⟨"B0", .vec [0]⟩,
            ⟨"W1", .mat [[1]]⟩, ⟨"B1", .vec [0]⟩]⟩ : Graph).nodes,
        nd.op = "Relu" → ("Y" : String) ∉ nd.inputs)) :=
  ⟨rfl, name_Y_ne_H, rfl,
    builder_layer_wiring [[[1]], [[1]]] [[0], [0]] "X" "Y" _ rfl name_Y_ne_H rfl⟩

/-- C6 (counterexample): calling the converter with output name "M1" — which
collides with the generated MatMul output name of layer 1 of a 2-layer
model — succeeds instead of failing with a NameCollision, and the produced
graph contains the tensor name "M1" twice among its node outputs. -/
theorem name_collision_not_detected :
    isOkB (nnet2onnxCore [[[1]], [[1]]] [[0], [0]] "X" "M1") = true ∧
    okOutCount (nnet2onnxCore [[[1]], [[1]]] [[0], [0]] "X" "M1") "M1" = 2 :=
  ⟨rfl, rfl⟩

/-- C6 (amended): the converter performs no name-collision check.  Whenever
a 2-layer conversion with the colliding output name "M1" succeeds, the
resulting graph carries the duplicate tensor name "M1" (as output of both
the layer-1 MatMul node and the final Add node) instead of any
NameCollision error. -/
theorem name_collision_amended (w0 w1 : Mat) (b0 b1 : Vec)
    (hok : isOkB (nnet2onnxCore [w0, w1] [b0, b1] "X" "M1") = true) :
    okOutCount (nnet2onnxCore [w0, w1] [b0, b1] "X" "M1") "M1" = 2 := by
  cases hv : validateDims (shape1 w0) 0 0 ([w0, w1].zip [b0, b1]) with
  | some e =>
    have hcore : nnet2onnxCore [w0, w1] [b0, b1] "X" "M1" = .error e := by
      simp only [nnet2onnxCore]
      rw [hv]
    rw [hcore] at hok
    simp [isOkB] at hok
  | none =>
    have hcore := nnet2onnxCore_eq_ok [w0, w1] [b0, b1] "X" "M1"
      (by simp) (by simp) (by simpa using hv)
    rw [hcore]
    rfl

theorem name_collision_amended_witness :
    isOkB (nnet2onnxCore [[[1]], [[1]]] [[0], [0]] "X" "M1") = true ∧
    okOutCount (nnet2onnxCore [[[1]], [[1]]] [[0], [0]] "X" "M1") "M1" = 2 :=
  ⟨rfl, name_collision_amended [[1]] [[1]] [0] [0] rfl⟩

/-- C7 (code bug): when the input `.nnet` file does not exist, `nnet2onnx`
swallows the `FileNotFoundError` — it prints a message and calls
`sys.exit(1)` — instead of letting the error propagate to its in-process
caller; the repository's own test `test_missing_file_handling` asserts that
`FileNotFoundError` is raised by exactly this call. -/
theorem missing_file_swallowed :
    nnet2onnx "nnet/NonExistentFile.nnet" (some "output.onnx")
      (.error .fileNotFound) "y_out" "X" = .sysExit 1 := rfl

/-- C9 (code bug): on the 2-layer model `weights = [[[1,0],[0,1]], [[2,2]]]`,
`biases = [[0,0],[1]]` with input "X" and output "y_out", the builder emits
exactly the claimed node sequence `MatMul(X,W0)=M0, Add(M0,B0)=H0,
Relu(H0)=R0, MatMul(R0,W1)=M1, Add(M1,B1)=y_out`; the intended network
value on input `[1,2]` is `7` (NNet forward semantics); but evaluating the
emitted graph under ONNX `MatMul` semantics fails with a shape error — the
layer-1 node multiplies a `1×2` tensor by `W1` of shape `(1,2)` — so the
graph does not compute `y_out = 7`. -/
theorem concrete_scenario_mismatch :
    nnet2onnxCore [[[1, 0], [0, 1]], [[2, 2]]] [[0, 0], [1]] "X" "y_out" =
      .ok ⟨[⟨"MatMul", ["X", "W0"], ["M0"]⟩,
            ⟨"Add", ["M0", "B0"], ["H0"]⟩,
            ⟨"Relu", ["H0"], ["R0"]⟩,
            ⟨"MatMul", ["R0", "W1"], ["M1"]⟩,
            ⟨"Add", ["M1", "B1"], ["y_out"]⟩],
           [⟨"X", 2⟩], [⟨"y_out", 1⟩],
           [⟨"W0", .mat [[1, 0], [0, 1]]⟩, ⟨"B0", .vec [0, 0]⟩,
            ⟨"W1", .mat [[2, 2]]⟩, ⟨"B1", .vec [1]⟩]⟩ ∧
    nnetForward [([[1, 0], [0, 1]], [0, 0]), ([[2, 2]], [1])] [1, 2] = [7] ∧
    (match nnet2onnxCore [[[1, 0], [0, 1]], [[2, 2]]] [[0, 0], [1]] "X" "y_out" with
     | .ok g => evalGraph g "X" [1, 2] "y_out"
     | .error _ => none) = none :=
  ⟨rfl, by norm_num [nnetForward, dot], rfl⟩

end NNetOnnx
